import Mathlib

/-!
# Verification of the coinmarket_service adapter

A shallow embedding of `src/coinmarket_service/server.py`: a thin MCP-style
adapter exposing two CoinMarketCap endpoints (listings, quotes) as resources
and tools.  HTTP is modelled as a pure oracle `Upstream : HttpRequest →
HttpResponse`; every operation also returns the list of requests it issued,
so "no network call" and "exactly one call" are provable.  JSON values are
modelled by an inductive `Json` (integer numerals; the service never
produces non-integer numerals in the properties verified here), with
`jdumps` mirroring Python's `json.dumps(·, indent=2)` (ensure_ascii
escaping included) and `parseJson` mirroring `json.loads`.
-/

/-- JSON documents as handled by `json.loads` / `json.dumps`.  Numbers are
modelled as integers; objects are insertion-ordered association lists, as in
a Python `dict`. -/
inductive Json where
  | null : Json
  | bool (b : Bool) : Json
  | num (n : Int) : Json
  | str (s : String) : Json
  | arr (elts : List Json) : Json
  | obj (fields : List (String × Json)) : Json

/-- Python `dict` insertion: updating an existing key keeps its position,
a new key is appended. -/
def dictInsert {α : Type} (d : List (String × α)) (k : String) (v : α) :
    List (String × α) :=
  match d with
  | [] => [(k, v)]
  | (k2, v2) :: rest =>
      if k2 = k then (k2, v) :: rest else (k2, v2) :: dictInsert rest k v

/-- Build a Python `dict` from a sequence of key/value pairs (as a dict
comprehension or `json.loads` does): later occurrences of a key overwrite
earlier ones, keeping the first position. -/
def pyDict {α : Type} (ps : List (String × α)) : List (String × α) :=
  ps.foldl (fun d kv => dictInsert d kv.1 kv.2) []

/-- `dict.get`: the value stored at a key, if any. -/
def dictGet {α : Type} (d : List (String × α)) (k : String) : Option α :=
  match d with
  | [] => none
  | (k2, v) :: rest => if k2 = k then some v else dictGet rest k

/-! ## Characters, digits and string escaping -/

/-- The whitespace characters skipped by Python's JSON decoder. -/
def isWsChar (c : Char) : Bool :=
  c = ' ' || c = '\t' || c = '\n' || c = '\r'

/-- Drop leading JSON whitespace. -/
def skipWs : List Char → List Char
  | [] => []
  | c :: cs => if isWsChar c then skipWs cs else c :: cs

/-- The decimal digit character for `d < 10`. -/
def digitChar (d : Nat) : Char :=
  match d with
  | 0 => '0' | 1 => '1' | 2 => '2' | 3 => '3' | 4 => '4'
  | 5 => '5' | 6 => '6' | 7 => '7' | 8 => '8' | _ => '9'

/-- The lowercase hexadecimal digit character for `d < 16`. -/
def hexChar (d : Nat) : Char :=
  match d with
  | 10 => 'a' | 11 => 'b' | 12 => 'c' | 13 => 'd' | 14 => 'e' | 15 => 'f'
  | d => digitChar d

/-- Four lowercase hex digits, as in Python's `\u%04x` escapes. -/
def hex4 (n : Nat) : List Char :=
  [hexChar (n / 4096 % 16), hexChar (n / 256 % 16),
   hexChar (n / 16 % 16), hexChar (n % 16)]

/-- Decimal digit characters of a natural number, most significant first
(`"0"` for zero), as Python prints a non-negative `int`. -/
def natChars (n : Nat) : List Char :=
  if n = 0 then ['0'] else (Nat.digits 10 n).reverse.map digitChar

/-- Decimal rendering of a Python `int`. -/
def intChars (n : Int) : List Char :=
  if n < 0 then '-' :: natChars n.natAbs else natChars n.toNat

/-- One character as escaped by `json.dumps` with `ensure_ascii=True`
(CPython's `py_encode_basestring_ascii`): printable ASCII other than the
quote and the backslash is kept, short escapes for the usual controls,
`\uXXXX` otherwise, surrogate pairs above the BMP. -/
def escChar (c : Char) : List Char :=
  if c = '"' then ['\\', '"']
  else if c = '\\' then ['\\', '\\']
  else if c = '\n' then ['\\', 'n']
  else if c = '\r' then ['\\', 'r']
  else if c = '\t' then ['\\', 't']
  else if c.toNat = 8 then ['\\', 'b']
  else if c.toNat = 12 then ['\\', 'f']
  else if c.toNat < 32 then '\\' :: 'u' :: hex4 c.toNat
  else if c.toNat < 127 then [c]
  else if c.toNat < 65536 then '\\' :: 'u' :: hex4 c.toNat
  else
    ('\\' :: 'u' :: hex4 (55296 + (c.toNat - 65536) / 1024)) ++
    ('\\' :: 'u' :: hex4 (56320 + (c.toNat - 65536) % 1024))

/-- A JSON string literal as emitted by `json.dumps` (quotes included). -/
def strChars (s : String) : List Char :=
  '"' :: (s.data.map escChar).flatten ++ ['"']

/-! ## `json.dumps(data, indent=2)` -/

/-- The newline-plus-indentation separator `json.dumps` inserts at
indentation level `lvl` when `indent=2`. -/
def nlIndent (lvl : Nat) : List Char :=
  '\n' :: List.replicate (2 * lvl) ' '

mutual

/-- `json.dumps(j, indent=2)` at indentation level `lvl`, as characters. -/
def dumpVal (lvl : Nat) : Json → List Char
  | .num n => intChars n
  | .str s => strChars s
  | .bool b => if b then ['t', 'r', 'u', 'e'] else ['f', 'a', 'l', 's', 'e']
  | .null => ['n', 'u', 'l', 'l']
  | .arr [] => ['[', ']']
  | .arr (x :: xs) => '[' :: dumpElems lvl x xs
  | .obj [] => ['{', '}']
  | .obj ((k, v) :: ms) => '{' :: dumpMembers lvl k v ms
termination_by j => sizeOf j
decreasing_by all_goals (simp_wf; try omega)

/-- The elements of a non-empty array (first element `x`, remaining `xs`),
each on its own indented line, up to and including the closing bracket. -/
def dumpElems (lvl : Nat) (x : Json) : List Json → List Char
  | [] => nlIndent (lvl + 1) ++ dumpVal (lvl + 1) x ++ nlIndent lvl ++ [']']
  | y :: ys => nlIndent (lvl + 1) ++ dumpVal (lvl + 1) x ++ ',' :: dumpElems lvl y ys
termination_by l => 1 + sizeOf x + sizeOf l
decreasing_by all_goals (simp_wf; try omega)

/-- The members of a non-empty object (first member `k`/`v`, remaining
`ms`), each `"key": value` on its own indented line, up to and including
the closing brace. -/
def dumpMembers (lvl : Nat) (k : String) (v : Json) : List (String × Json) → List Char
  | [] => nlIndent (lvl + 1) ++ strChars k ++ ':' :: ' ' :: dumpVal (lvl + 1) v ++
          nlIndent lvl ++ ['}']
  | (k2, v2) :: ms => nlIndent (lvl + 1) ++ strChars k ++ ':' :: ' ' :: dumpVal (lvl + 1) v ++
          ',' :: dumpMembers lvl k2 v2 ms
termination_by l => 1 + sizeOf v + sizeOf l
decreasing_by all_goals (simp_wf; try omega)

end

/-- `json.dumps(j, indent=2)`. -/
def jdumps (j : Json) : String :=
  String.mk (dumpVal 0 j)

/-! ## `json.loads` -/

/-- Decode a single-character JSON escape (`\"`, `\\`, `\/`, `\b`, `\f`,
`\n`, `\r`, `\t`). -/
def escDecode (e : Char) : Option Char :=
  if e = '"' then some '"'
  else if e = '\\' then some '\\'
  else if e = '/' then some '/'
  else if e = 'b' then some (Char.ofNat 8)
  else if e = 'f' then some (Char.ofNat 12)
  else if e = 'n' then some '\n'
  else if e = 'r' then some '\r'
  else if e = 't' then some '\t'
  else none

/-- The value of a hexadecimal digit character. -/
def hexVal (c : Char) : Option Nat :=
  if c.isDigit then some (c.toNat - 48)
  else if 'a' ≤ c ∧ c ≤ 'f' then some (c.toNat - 87)
  else if 'A' ≤ c ∧ c ≤ 'F' then some (c.toNat - 55)
  else none

/-- Consume a maximal run of decimal digits, accumulating their value. -/
def readDigits (acc : Nat) : List Char → Nat × List Char
  | [] => (acc, [])
  | c :: cs =>
      if c.isDigit then readDigits (10 * acc + (c.toNat - 48)) cs
      else (acc, c :: cs)

/-- Consume an expected literal sequence of characters. -/
def expectChars : List Char → List Char → Option (List Char)
  | [], cs => some cs
  | _ :: _, [] => none
  | p :: ps, c :: cs => if c = p then expectChars ps cs else none

/-- The body of a JSON string literal, after the opening quote: the decoded
characters and the input following the closing quote.  Raw control
characters are rejected (strict mode); `\uXXXX` escapes denoting surrogate
code units are rejected (a Lean `Char` cannot hold a lone surrogate). -/
def parseStrBody : Nat → List Char → Option (List Char × List Char)
  | 0, _ => none
  | fuel + 1, cs =>
    match cs with
    | [] => none
    | c :: r =>
      if c = '"' then some ([], r)
      else if c = '\\' then
        match r with
        | [] => none
        | e :: r2 =>
          if e = 'u' then
            match r2 with
            | a :: b :: c2 :: d :: r3 =>
              match hexVal a, hexVal b, hexVal c2, hexVal d with
              | some ha, some hb, some hc, some hd =>
                let n := 4096 * ha + 256 * hb + 16 * hc + hd
                if n < 55296 ∨ 57343 < n then
                  match parseStrBody fuel r3 with
                  | some (s, r4) => some (Char.ofNat n :: s, r4)
                  | none => none
                else none
              | _, _, _, _ => none
            | _ => none
          else
            match escDecode e with
            | some ch =>
              match parseStrBody fuel r2 with
              | some (s, r3) => some (ch :: s, r3)
              | none => none
            | none => none
      else if c.toNat < 32 then none
      else
        match parseStrBody fuel r with
        | some (s, r3) => some (c :: s, r3)
        | none => none

mutual

/-- One JSON value, after optional leading whitespace: the value and the
remaining input.  Mirrors Python's decoder: `0` may not be followed by
further digits, object member lists are collapsed into a `dict`
(last occurrence of a key wins). -/
def parseVal : Nat → List Char → Option (Json × List Char)
  | 0, _ => none
  | fuel + 1, cs =>
    match skipWs cs with
    | [] => none
    | c :: r =>
      if c = 'n' then
        match expectChars ['u', 'l', 'l'] r with
        | some r2 => some (.null, r2)
        | none => none
      else if c = 't' then
        match expectChars ['r', 'u', 'e'] r with
        | some r2 => some (.bool true, r2)
        | none => none
      else if c = 'f' then
        match expectChars ['a', 'l', 's', 'e'] r with
        | some r2 => some (.bool false, r2)
        | none => none
      else if c = '"' then
        match parseStrBody fuel r with
        | some (s, r2) => some (.str (String.mk s), r2)
        | none => none
      else if c = '[' then
        match skipWs r with
        | [] => none
        | c2 :: r2 =>
          if c2 = ']' then some (.arr [], r2)
          else
            match parseElems fuel r with
            | some (vs, r3) => some (.arr vs, r3)
            | none => none
      else if c = '{' then
        match skipWs r with
        | [] => none
        | c2 :: r2 =>
          if c2 = '}' then some (.obj [], r2)
          else
            match parseMembers fuel r with
            | some (ms, r3) => some (.obj (pyDict ms), r3)
            | none => none
      else if c = '-' then
        match r with
        | [] => none
        | c2 :: r2 =>
          if c2 = '0' then some (.num 0, r2)
          else if c2.isDigit then
            let p := readDigits 0 (c2 :: r2)
            some (.num (-(p.1 : Int)), p.2)
          else none
      else if c = '0' then some (.num 0, r)
      else if c.isDigit then
        let p := readDigits 0 (c :: r)
        some (.num (p.1 : Int), p.2)
      else none

/-- The elements of a non-empty array, after the opening bracket, up to and
including the closing bracket. -/
def parseElems : Nat → List Char → Option (List Json × List Char)
  | 0, _ => none
  | fuel + 1, cs =>
    match parseVal fuel cs with
    | some (v, r) =>
      (match skipWs r with
       | [] => none
       | c :: r2 =>
         if c = ',' then
           match parseElems fuel r2 with
           | some (vs, r3) => some (v :: vs, r3)
           | none => none
         else if c = ']' then some ([v], r2)
         else none)
    | none => none

/-- The members of a non-empty object, after the opening brace, up to and
including the closing brace, in source order. -/
def parseMembers : Nat → List Char → Option (List (String × Json) × List Char)
  | 0, _ => none
  | fuel + 1, cs =>
    match skipWs cs with
    | [] => none
    | c :: r =>
      if c = '"' then
        match parseStrBody fuel r with
        | some (k, r2) =>
          (match skipWs r2 with
           | [] => none
           | c2 :: r3 =>
             if c2 = ':' then
               match parseVal fuel r3 with
               | some (v, r4) =>
                 (match skipWs r4 with
                  | [] => none
                  | c3 :: r5 =>
                    if c3 = ',' then
                      match parseMembers fuel r5 with
                      | some (ms, r6) => some ((String.mk k, v) :: ms, r6)
                      | none => none
                    else if c3 = '}' then some ([(String.mk k, v)], r5)
                    else none)
               | none => none
             else none)
        | none => none
      else none

end

/-- `json.loads(s)`: parse one value, then require only trailing
whitespace.  The fuel `2 * s.length + 1` is enough for any input, since
every recursive parsing step consumes at least one character. -/
def parseJson (s : String) : Option Json :=
  match parseVal (2 * s.length + 1) s.data with
  | some (v, r) => if skipWs r = [] then some v else none
  | none => none

/-! ## HTTP model

The `requests` transport is modelled as a pure oracle mapping a request to
a response.  Every service operation returns, besides its result, the list
of HTTP requests it issued, so claims about the absence or number of
upstream calls are statable. -/

/-- An outbound HTTP GET: URL, query parameters and headers, as passed to
`requests.get(url, headers=headers, params=parameters)`. -/
structure HttpRequest where
  url : String
  params : List (String × String)
  headers : List (String × String)
deriving DecidableEq

/-- The response object the service inspects: `status_code`, `reason` and
`text`. -/
structure HttpResponse where
  status : Nat
  reason : String
  text : String
deriving DecidableEq

/-- The upstream behaviour: what response each request receives. -/
def Upstream := HttpRequest → HttpResponse

/-- The Python exceptions the service can raise or observe. -/
inductive PyErr where
  | valueError (msg : String)
  | httpError (status : Nat) (msg : String) (body : String)
  | jsonDecodeError (msg : String)
  | runtimeError (msg : String)
deriving DecidableEq

/-- `str(e)` for the exceptions above (for `HTTPError`, the message built
by `raise_for_status`). -/
def errStr : PyErr → String
  | .valueError m => m
  | .httpError _ m _ => m
  | .jsonDecodeError m => m
  | .runtimeError m => m

/-- The message of the `HTTPError` raised by
`requests.Response.raise_for_status`. -/
def httpErrMsg (url : String) (r : HttpResponse) : String :=
  if r.status < 500 then
    toString r.status ++ " Client Error: " ++ r.reason ++ " for url: " ++ url
  else
    toString r.status ++ " Server Error: " ++ r.reason ++ " for url: " ++ url

/-- `response.raise_for_status()`: an `HTTPError` carrying the response's
status and body for a 4xx or 5xx status, nothing otherwise. -/
def raise_for_status (url : String) (r : HttpResponse) : Option PyErr :=
  if 400 ≤ r.status ∧ r.status < 600 then
    some (.httpError r.status (httpErrMsg url r) r.text)
  else none

/-! ## Upstream client (`get_currency_listings`, `get_quotes`) -/

def listingsUrl : String :=
  "https://pro-api.coinmarketcap.com/v1/cryptocurrency/listings/latest"

def quotesUrl : String :=
  "https://pro-api.coinmarketcap.com/v1/cryptocurrency/quotes/latest"

/-- The headers both operations attach. -/
def cmcHeaders (apiKey : String) : List (String × String) :=
  [("Accepts", "application/json"), ("X-CMC_PRO_API_KEY", apiKey)]

/-- The one request `get_currency_listings` issues. -/
def listingsRequest (apiKey : String) : HttpRequest :=
  ⟨listingsUrl, [("start", "1"), ("limit", "5"), ("convert", "USD")], cmcHeaders apiKey⟩

/-- The query parameters `get_quotes` sends: `convert=USD` always, then
`slug` and `symbol` added only when truthy (`if slug:` in Python is false
both for `None` and for the empty string). -/
def quotesParams (slug symbol : Option String) : List (String × String) :=
  let ps := [("convert", "USD")]
  let ps := match slug with
    | some s => if s = "" then ps else ps ++ [("slug", s)]
    | none => ps
  match symbol with
  | some s => if s = "" then ps else ps ++ [("symbol", s)]
  | none => ps

/-- The one request `get_quotes` issues. -/
def quotesRequest (apiKey : String) (slug symbol : Option String) : HttpRequest :=
  ⟨quotesUrl, quotesParams slug symbol, cmcHeaders apiKey⟩

/-- `get_currency_listings()`: one GET to the listings endpoint with fixed
parameters, `raise_for_status`, then `json.loads(response.text)` returned
unchanged.  (The position detail of Python's `JSONDecodeError` message is
not modelled.) -/
def get_currency_listings (apiKey : String) (u : Upstream) :
    Except PyErr Json × List HttpRequest :=
  let req := listingsRequest apiKey
  let response := u req
  match raise_for_status listingsUrl response with
  | some e => (.error e, [req])
  | none =>
    match parseJson response.text with
    | some data => (.ok data, [req])
    | none => (.error (.jsonDecodeError "Expecting value"), [req])

/-- `get_quotes(slug, symbol)`: one GET to the quotes endpoint,
`raise_for_status`, then `json.loads(response.text)` returned unchanged. -/
def get_quotes (apiKey : String) (slug symbol : Option String) (u : Upstream) :
    Except PyErr Json × List HttpRequest :=
  let req := quotesRequest apiKey slug symbol
  let response := u req
  match raise_for_status quotesUrl response with
  | some e => (.error e, [req])
  | none =>
    match parseJson response.text with
    | some data => (.ok data, [req])
    | none => (.error (.jsonDecodeError "Expecting value"), [req])

/-! ## Catalogs and dispatch (`handle_list_resources`, `handle_read_resource`,
`handle_list_tools`, `handle_call_tool`) -/

/-- `types.Resource`, with the fields the service sets. -/
structure Resource where
  uri : String
  name : String
  description : String
  mimeType : String
deriving DecidableEq

/-- `handle_list_resources()`: the fixed two-entry resource catalog. -/
def handle_list_resources : List Resource :=
  [⟨"coinmarket://cryptocurrency/listings",
    "Latest cryptocurrency listings from coinmarket",
    "Cryptocurrency listings", "application/json"⟩,
   ⟨"coinmarket://cryptocurrency/quotes",
    "Cryptocurrency quotes",
    "Cryptocurrency quotes", "application/json"⟩]

/-- `types.Tool`, with the fields the service sets (`inputSchema` is a JSON
document). -/
structure Tool where
  name : String
  description : String
  inputSchema : Json

/-- `handle_list_tools()`: the fixed two-entry tool catalog. -/
def handle_list_tools : List Tool :=
  [⟨"get_currency_listings", "Get latest cryptocurrency listings",
    Json.obj [("type", .str "object"), ("properties", .obj []),
              ("required", .arr [])]⟩,
   ⟨"get_quotes", "Get cryptocurrency quotes",
    Json.obj [("type", .str "object"),
              ("properties", .obj [("slug", .obj [("type", .str "string")]),
                                   ("symbol", .obj [("type", .str "string")])]),
              ("required", .arr [])]⟩]

/-- Member lookup in a JSON object. -/
def jGet (j : Json) (k : String) : Option Json :=
  match j with
  | .obj fields => dictGet fields k
  | _ => none

/-- The parsed `AnyUrl` as the handler consumes it: `uri.scheme`,
`uri.path`, and `uri.query_params()` as a list of key/value pairs. -/
structure Uri where
  scheme : String
  path : String
  queryParams : List (String × String)
deriving DecidableEq

/-- `handle_read_resource(uri)`: reject foreign schemes, route on the path,
pretty-print the upstream payload; any exception from the fetch is
re-raised as a `RuntimeError` embedding `str(e)`. -/
def handle_read_resource (apiKey : String) (u : Upstream) (uri : Uri) :
    Except PyErr String × List HttpRequest :=
  if uri.scheme ≠ "coinmarket" then
    (.error (.valueError ("Unsupported scheme: " ++ uri.scheme)), [])
  else if uri.path = "/listings" then
    match get_currency_listings apiKey u with
    | (.ok data, log) => (.ok (jdumps data), log)
    | (.error e, log) =>
        (.error (.runtimeError ("Failed to fetch listings data: " ++ errStr e)), log)
  else if uri.path = "/quotes" then
    let query_params := pyDict uri.queryParams
    let slug := dictGet query_params "slug"
    let symbol := dictGet query_params "symbol"
    match get_quotes apiKey slug symbol u with
    | (.ok data, log) => (.ok (jdumps data), log)
    | (.error e, log) =>
        (.error (.runtimeError ("Failed to fetch quotes data: " ++ errStr e)), log)
  else
    (.error (.valueError ("Unsupported path: " ++ uri.path)), [])

/-- `types.TextContent`: `type="text"` plus the payload text. -/
structure TextContent where
  type : String
  text : String
deriving DecidableEq

/-- The `slug`/`symbol` pair `handle_call_tool` extracts for `get_quotes`:
`if not arguments` (absent or empty mapping) both are `None`, otherwise
`arguments.get(...)`. -/
def quotesArgs (arguments : Option (List (String × String))) :
    Option String × Option String :=
  match arguments with
  | none => (none, none)
  | some args =>
      if args = [] then (none, none)
      else (dictGet args "slug", dictGet args "symbol")

/-- `handle_call_tool(name, arguments)`: dispatch on the tool name; wrap
the pretty-printed payload in a single text content item; re-raise any
fetch exception as a `RuntimeError`; reject unknown tools. -/
def handle_call_tool (apiKey : String) (u : Upstream) (name : String)
    (arguments : Option (List (String × String))) :
    Except PyErr (List TextContent) × List HttpRequest :=
  if name = "get_currency_listings" then
    match get_currency_listings apiKey u with
    | (.ok data, log) => (.ok [⟨"text", jdumps data⟩], log)
    | (.error e, log) =>
        (.error (.runtimeError ("Failed to fetch data: " ++ errStr e)), log)
  else if name = "get_quotes" then
    let sv := quotesArgs arguments
    match get_quotes apiKey sv.1 sv.2 u with
    | (.ok data, log) => (.ok [⟨"text", jdumps data⟩], log)
    | (.error e, log) =>
        (.error (.runtimeError ("Failed to fetch data: " ++ errStr e)), log)
  else
    (.error (.valueError ("Unsupported tool: " ++ name)), [])

/-- The module-level startup of `server.py` (lines 13-16): read the
`COINMARKET_API_KEY` environment variable; `if not API_KEY` (absent or
empty) raise `ValueError` before the server object is even constructed, so
no request is ever served.  On success the process serves with the key. -/
def moduleStartup (getenv : String → Option String) : Except PyErr String :=
  match getenv "COINMARKET_API_KEY" with
  | none => .error (.valueError "Missing COINMARKETCAP_API_KEY environment variable")
  | some k =>
      if k = "" then
        .error (.valueError "Missing COINMARKETCAP_API_KEY environment variable")
      else .ok k

/-- A constant upstream, for concrete witnesses. -/
def stubUpstream (r : HttpResponse) : Upstream := fun _ => r

/-! ## Helper lemmas about the upstream client -/

/-- Every invocation of the listings fetch issues exactly its one fixed
request, whatever the upstream does. -/
theorem get_currency_listings_log (apiKey : String) (u : Upstream) :
    (get_currency_listings apiKey u).2 = [listingsRequest apiKey] := by
  simp only [get_currency_listings]
  split
  · rfl
  · split <;> rfl

/-- Every invocation of the quotes fetch issues exactly its one request. -/
theorem get_quotes_log (apiKey : String) (slug symbol : Option String) (u : Upstream) :
    (get_quotes apiKey slug symbol u).2 = [quotesRequest apiKey slug symbol] := by
  simp only [get_quotes]
  split
  · rfl
  · split <;> rfl

/-- The result envelope `handle_call_tool` puts around a fetch outcome. -/
def wrapTool (r : Except PyErr Json × List HttpRequest) :
    Except PyErr (List TextContent) × List HttpRequest :=
  match r with
  | (.ok data, log) => (.ok [⟨"text", jdumps data⟩], log)
  | (.error e, log) =>
      (.error (.runtimeError ("Failed to fetch data: " ++ errStr e)), log)

/-- The result envelope `handle_read_resource` puts around the quotes
fetch outcome. -/
def wrapReadQuotes (r : Except PyErr Json × List HttpRequest) :
    Except PyErr String × List HttpRequest :=
  match r with
  | (.ok data, log) => (.ok (jdumps data), log)
  | (.error e, log) =>
      (.error (.runtimeError ("Failed to fetch quotes data: " ++ errStr e)), log)

/-! ## The claims -/

/-- C1: for every tool name other than `get_currency_listings` and
`get_quotes`, and every arguments mapping (present or not), `callTool`
fails with the `ValueError "Unsupported tool: <name>"` naming the tool,
and no upstream request is issued. -/
theorem C1_unsupported_tool (apiKey : String) (u : Upstream) (name : String)
    (arguments : Option (List (String × String)))
    (h1 : name ≠ "get_currency_listings") (h2 : name ≠ "get_quotes") :
    handle_call_tool apiKey u name arguments =
      (.error (.valueError ("Unsupported tool: " ++ name)), []) := by
  unfold handle_call_tool
  rw [if_neg h1, if_neg h2]

/-- C1 witness: the unknown tool `nonexistent_tool` with empty arguments. -/
theorem C1_witness :
    ("nonexistent_tool" : String) ≠ "get_currency_listings" ∧
    ("nonexistent_tool" : String) ≠ "get_quotes" ∧
    handle_call_tool "k" (stubUpstream ⟨200, "OK", "null"⟩) "nonexistent_tool" (some []) =
      (.error (.valueError ("Unsupported tool: " ++ "nonexistent_tool")), []) :=
  ⟨by decide, by decide,
   C1_unsupported_tool "k" (stubUpstream ⟨200, "OK", "null"⟩) "nonexistent_tool"
     (some []) (by decide) (by decide)⟩

/-- C2: `callTool("get_quotes", {})` and `callTool("get_quotes", None)`
are the same function of the upstream; both invoke the quotes fetch with
`slug=None, symbol=None` and return its wrapped result. -/
theorem C2_get_quotes_none_empty (apiKey : String) (u : Upstream) :
    handle_call_tool apiKey u "get_quotes" (some []) =
      handle_call_tool apiKey u "get_quotes" none ∧
    handle_call_tool apiKey u "get_quotes" none =
      wrapTool (get_quotes apiKey none none u) := by
  constructor
  · rfl
  · unfold handle_call_tool
    rw [if_neg (by decide : ¬("get_quotes" : String) = "get_currency_listings"),
        if_pos rfl]
    simp only [quotesArgs]
    rcases h : get_quotes apiKey none none u with ⟨r, log⟩
    unfold wrapTool
    rfl

/-- C3: `readResource` on any URI whose scheme is not `coinmarket` fails
with the `ValueError "Unsupported scheme: ..."`, whatever the path, and
issues no upstream request. -/
theorem C3_unsupported_scheme (apiKey : String) (u : Upstream) (uri : Uri)
    (h : uri.scheme ≠ "coinmarket") :
    handle_read_resource apiKey u uri =
      (.error (.valueError ("Unsupported scheme: " ++ uri.scheme)), []) := by
  unfold handle_read_resource
  rw [if_pos h]

/-- C3 witness: an `http`-scheme URI with a recognized path. -/
theorem C3_witness :
    ("http" : String) ≠ "coinmarket" ∧
    handle_read_resource "k" (stubUpstream ⟨200, "OK", "null"⟩) ⟨"http", "/listings", []⟩ =
      (.error (.valueError ("Unsupported scheme: " ++ "http")), []) :=
  ⟨by decide,
   C3_unsupported_scheme "k" (stubUpstream ⟨200, "OK", "null"⟩) ⟨"http", "/listings", []⟩
     (by decide)⟩

/-- C5: every invocation of `get_currency_listings` issues exactly one GET,
to the listings endpoint, with `start=1, limit=5, convert=USD` and the
API-key header; on a 2xx status the parsed JSON body is returned
unchanged. -/
theorem C5_listings_contract (apiKey : String) (u : Upstream) :
    (get_currency_listings apiKey u).2 = [listingsRequest apiKey] ∧
    (listingsRequest apiKey).url = listingsUrl ∧
    (listingsRequest apiKey).params = [("start", "1"), ("limit", "5"), ("convert", "USD")] ∧
    (listingsRequest apiKey).headers = [("Accepts", "application/json"),
                                        ("X-CMC_PRO_API_KEY", apiKey)] ∧
    (∀ j, 200 ≤ (u (listingsRequest apiKey)).status →
      (u (listingsRequest apiKey)).status < 300 →
      parseJson (u (listingsRequest apiKey)).text = some j →
      (get_currency_listings apiKey u).1 = .ok j) := by
  refine ⟨get_currency_listings_log apiKey u, rfl, rfl, rfl, ?_⟩
  intro j h1 h2 h3
  have hr : raise_for_status listingsUrl (u (listingsRequest apiKey)) = none := by
    unfold raise_for_status
    rw [if_neg (by omega)]
  simp only [get_currency_listings, hr, h3]

/-- C5 witness: a 200 upstream with body `null`. -/
theorem C5_witness :
    200 ≤ (stubUpstream ⟨200, "OK", "null"⟩ (listingsRequest "k")).status ∧
    (stubUpstream ⟨200, "OK", "null"⟩ (listingsRequest "k")).status < 300 ∧
    parseJson (stubUpstream ⟨200, "OK", "null"⟩ (listingsRequest "k")).text = some .null ∧
    (get_currency_listings "k" (stubUpstream ⟨200, "OK", "null"⟩)).1 = .ok .null :=
  ⟨by decide, by decide, rfl,
   (C5_listings_contract "k" (stubUpstream ⟨200, "OK", "null"⟩)).2.2.2.2 .null
     (by decide) (by decide) rfl⟩

/-- C6 counterexample: a 304 response is not a 2xx status, yet
`get_currency_listings` does not fail with an `HTTPError`: Python's
`raise_for_status` only raises for 4xx/5xx, so the body is parsed and
returned as a success. -/
theorem C6_counterexample :
    (stubUpstream ⟨304, "Not Modified", "null"⟩ (listingsRequest "k")).status = 304 ∧
    get_currency_listings "k" (stubUpstream ⟨304, "Not Modified", "null"⟩) =
      (.ok Json.null, [listingsRequest "k"]) :=
  ⟨rfl, rfl⟩

/-- C6 (amended): for every 4xx or 5xx upstream status, both fetch
operations fail with the `HTTPError` carrying that status and the response
body, the error is returned to the caller unchanged, and exactly one
request was issued (no retry). -/
theorem C6_http_error (apiKey : String) (u : Upstream) (slug symbol : Option String)
    (h1 : 400 ≤ (u (listingsRequest apiKey)).status)
    (h2 : (u (listingsRequest apiKey)).status < 600)
    (h3 : 400 ≤ (u (quotesRequest apiKey slug symbol)).status)
    (h4 : (u (quotesRequest apiKey slug symbol)).status < 600) :
    get_currency_listings apiKey u =
      (.error (.httpError (u (listingsRequest apiKey)).status
        (httpErrMsg listingsUrl (u (listingsRequest apiKey)))
        (u (listingsRequest apiKey)).text), [listingsRequest apiKey]) ∧
    get_quotes apiKey slug symbol u =
      (.error (.httpError (u (quotesRequest apiKey slug symbol)).status
        (httpErrMsg quotesUrl (u (quotesRequest apiKey slug symbol)))
        (u (quotesRequest apiKey slug symbol)).text), [quotesRequest apiKey slug symbol]) := by
  constructor
  · have hr : raise_for_status listingsUrl (u (listingsRequest apiKey)) =
        some (.httpError (u (listingsRequest apiKey)).status
          (httpErrMsg listingsUrl (u (listingsRequest apiKey)))
          (u (listingsRequest apiKey)).text) := by
      unfold raise_for_status
      rw [if_pos ⟨h1, h2⟩]
    simp only [get_currency_listings, hr]
  · have hr : raise_for_status quotesUrl (u (quotesRequest apiKey slug symbol)) =
        some (.httpError (u (quotesRequest apiKey slug symbol)).status
          (httpErrMsg quotesUrl (u (quotesRequest apiKey slug symbol)))
          (u (quotesRequest apiKey slug symbol)).text) := by
      unfold raise_for_status
      rw [if_pos ⟨h3, h4⟩]
    simp only [get_quotes, hr]

/-- C6 witness: a 401 upstream. -/
theorem C6_witness :
    400 ≤ (stubUpstream ⟨401, "Unauthorized", "err"⟩ (listingsRequest "k")).status ∧
    (stubUpstream ⟨401, "Unauthorized", "err"⟩ (listingsRequest "k")).status < 600 ∧
    400 ≤ (stubUpstream ⟨401, "Unauthorized", "err"⟩ (quotesRequest "k" none none)).status ∧
    (stubUpstream ⟨401, "Unauthorized", "err"⟩ (quotesRequest "k" none none)).status < 600 ∧
    (get_currency_listings "k" (stubUpstream ⟨401, "Unauthorized", "err"⟩) =
      (.error (.httpError (stubUpstream ⟨401, "Unauthorized", "err"⟩ (listingsRequest "k")).status
        (httpErrMsg listingsUrl (stubUpstream ⟨401, "Unauthorized", "err"⟩ (listingsRequest "k")))
        (stubUpstream ⟨401, "Unauthorized", "err"⟩ (listingsRequest "k")).text),
       [listingsRequest "k"]) ∧
     get_quotes "k" none none (stubUpstream ⟨401, "Unauthorized", "err"⟩) =
      (.error (.httpError (stubUpstream ⟨401, "Unauthorized", "err"⟩ (quotesRequest "k" none none)).status
        (httpErrMsg quotesUrl (stubUpstream ⟨401, "Unauthorized", "err"⟩ (quotesRequest "k" none none)))
        (stubUpstream ⟨401, "Unauthorized", "err"⟩ (quotesRequest "k" none none)).text),
       [quotesRequest "k" none none])) :=
  ⟨by decide, by decide, by decide, by decide,
   C6_http_error "k" (stubUpstream ⟨401, "Unauthorized", "err"⟩) none none
     (by decide) (by decide) (by decide) (by decide)⟩

/-- C8: the two catalogs are constant functions of no input (hence pure and
order-stable across calls): exactly the two resources
`coinmarket://cryptocurrency/listings` then `.../quotes`, and exactly the
two tools `get_currency_listings` (no properties, none required) then
`get_quotes` (optional string `slug` and `symbol`, none required). -/
theorem C8_catalogs_static :
    handle_list_resources.map Resource.uri =
      ["coinmarket://cryptocurrency/listings", "coinmarket://cryptocurrency/quotes"] ∧
    handle_list_resources.length = 2 ∧
    handle_list_tools.map Tool.name = ["get_currency_listings", "get_quotes"] ∧
    handle_list_tools.length = 2 ∧
    handle_list_tools.map (fun t => jGet t.inputSchema "properties") =
      [some (Json.obj []),
       some (Json.obj [("slug", Json.obj [("type", Json.str "string")]),
                       ("symbol", Json.obj [("type", Json.str "string")])])] ∧
    handle_list_tools.map (fun t => jGet t.inputSchema "required") =
      [some (Json.arr []), some (Json.arr [])] :=
  ⟨rfl, rfl, rfl, rfl, rfl, rfl⟩

/-- C9: if the API-key variable is absent or empty, module startup raises
the descriptive `ValueError`, and in particular never yields a key for the
server to serve with. -/
theorem C9_startup_fails (getenv : String → Option String)
    (h : getenv "COINMARKET_API_KEY" = none ∨ getenv "COINMARKET_API_KEY" = some "") :
    moduleStartup getenv =
      .error (.valueError "Missing COINMARKETCAP_API_KEY environment variable") ∧
    ∀ k, moduleStartup getenv ≠ .ok k := by
  have h1 : moduleStartup getenv =
      .error (.valueError "Missing COINMARKETCAP_API_KEY environment variable") := by
    unfold moduleStartup
    rcases h with h | h
    · rw [h]
    · rw [h]; rfl
  refine ⟨h1, fun k hk => ?_⟩
  rw [h1] at hk
  exact Except.noConfusion hk

/-- C9 witness: an environment with no variables set. -/
theorem C9_witness :
    ((fun _ => none : String → Option String) "COINMARKET_API_KEY" = none ∨
      (fun _ => none : String → Option String) "COINMARKET_API_KEY" = some "") ∧
    moduleStartup (fun _ => none) =
      .error (.valueError "Missing COINMARKETCAP_API_KEY environment variable") ∧
    ∀ k, moduleStartup (fun _ => none) ≠ .ok k :=
  ⟨Or.inl rfl, C9_startup_fails (fun _ => none) (Or.inl rfl)⟩

/-- C10: when the quotes URI repeats a query key, the dict comprehension
keeps the last occurrence; the fetch is invoked with that last value and
(when it is non-empty) the upstream query carries it. -/
theorem C10_repeated_key_last_wins (apiKey : String) (u : Upstream) (a b : String)
    (hb : b ≠ "") :
    dictGet (pyDict [("slug", a), ("slug", b)]) "slug" = some b ∧
    handle_read_resource apiKey u ⟨"coinmarket", "/quotes", [("slug", a), ("slug", b)]⟩ =
      wrapReadQuotes (get_quotes apiKey (some b) none u) ∧
    ("slug", b) ∈ (quotesRequest apiKey (some b) none).params := by
  refine ⟨rfl, ?_, ?_⟩
  · have h1 : dictGet (pyDict [("slug", a), ("slug", b)]) "slug" = some b := rfl
    have h2 : dictGet (pyDict [("slug", a), ("slug", b)]) "symbol" = none := rfl
    unfold handle_read_resource
    dsimp only
    rw [if_neg (by decide : ¬¬("coinmarket" : String) = "coinmarket"),
        if_neg (by decide : ¬("/quotes" : String) = "/listings"), if_pos rfl]
    simp only [h1, h2]
    rcases h : get_quotes apiKey (some b) none u with ⟨r, log⟩
    unfold wrapReadQuotes
    rfl
  · have hp : quotesParams (some b) none = [("convert", "USD"), ("slug", b)] := by
      simp [quotesParams, hb]
    simp [quotesRequest, hp]

/-- C10 witness: `?slug=a&slug=b`. -/
theorem C10_witness :
    ("b" : String) ≠ "" ∧
    (dictGet (pyDict [("slug", "a"), ("slug", "b")]) "slug" = some "b" ∧
     handle_read_resource "k" (stubUpstream ⟨200, "OK", "null"⟩)
        ⟨"coinmarket", "/quotes", [("slug", "a"), ("slug", "b")]⟩ =
       wrapReadQuotes (get_quotes "k" (some "b") none (stubUpstream ⟨200, "OK", "null"⟩)) ∧
     ("slug", "b") ∈ (quotesRequest "k" (some "b") none).params) :=
  ⟨by decide,
   C10_repeated_key_last_wins "k" (stubUpstream ⟨200, "OK", "null"⟩) "a" "b" (by decide)⟩

/-- A `"slug"` parameter appears in the quotes query exactly when the slug
argument is present with a non-empty value (`if slug:` in Python). -/
theorem slug_mem_quotesParams (oslug osym : Option String) (s : String) :
    ("slug", s) ∈ quotesParams oslug osym ↔ oslug = some s ∧ s ≠ "" := by
  unfold quotesParams
  rcases oslug with _ | t <;> rcases osym with _ | t2
  · simp
  · by_cases h2 : t2 = "" <;> simp [h2]
  · by_cases h : t = "" <;> simp [h]
    · exact fun he => he.symm
    · exact ⟨fun hs => ⟨hs.symm, by rw [hs]; exact h⟩, fun hp => hp.1.symm⟩
  · by_cases h : t = "" <;> by_cases h2 : t2 = "" <;> simp [h, h2]
    · exact fun he => he.symm
    · exact fun he => he.symm
    · exact ⟨fun hs => ⟨hs.symm, by rw [hs]; exact h⟩, fun hp => hp.1.symm⟩
    · exact ⟨fun hs => ⟨hs.symm, by rw [hs]; exact h⟩, fun hp => hp.1.symm⟩

/-- A `"symbol"` parameter appears in the quotes query exactly when the
symbol argument is present with a non-empty value. -/
theorem symbol_mem_quotesParams (oslug osym : Option String) (s : String) :
    ("symbol", s) ∈ quotesParams oslug osym ↔ osym = some s ∧ s ≠ "" := by
  unfold quotesParams
  rcases oslug with _ | t <;> rcases osym with _ | t2
  · simp
  · by_cases h2 : t2 = "" <;> simp [h2]
    · exact fun he => he.symm
    · exact ⟨fun hs => ⟨hs.symm, by rw [hs]; exact h2⟩, fun hp => hp.1.symm⟩
  · by_cases h : t = "" <;> simp [h]
  · by_cases h : t = "" <;> by_cases h2 : t2 = "" <;> simp [h, h2]
    · exact fun he => he.symm
    · exact ⟨fun hs => ⟨hs.symm, by rw [hs]; exact h2⟩, fun hp => hp.1.symm⟩
    · exact fun he => he.symm
    · exact ⟨fun hs => ⟨hs.symm, by rw [hs]; exact h2⟩, fun hp => hp.1.symm⟩

/-- C4 counterexample: with the quotes URI query `?slug=` the `slug`
parameter is present (the dict holds `slug=""`), yet the upstream request
carries no `slug` parameter — Python's `if slug:` drops the empty string —
so "included if and only if present" fails. -/
theorem C4_counterexample :
    dictGet (pyDict [("slug", "")]) "slug" = some "" ∧
    (handle_read_resource "k" (stubUpstream ⟨200, "OK", "null"⟩)
        ⟨"coinmarket", "/quotes", [("slug", "")]⟩).2 =
      [HttpRequest.mk quotesUrl [("convert", "USD")] (cmcHeaders "k")] :=
  ⟨rfl, rfl⟩

/-- C4 (amended): `readResource` on the quotes path extracts `slug` and
`symbol` from the query dict and invokes the quotes fetch with them
(issuing exactly one request even when both are absent); a parameter is
included in the upstream query iff it is present with a non-empty value —
in particular `?slug=bitcoin` yields `slug=bitcoin` and no `symbol`. -/
theorem C4_read_quotes_params (apiKey : String) (u : Upstream)
    (qps : List (String × String)) (oslug osym : Option String) (s : String) :
    (handle_read_resource apiKey u ⟨"coinmarket", "/quotes", qps⟩).2 =
      [quotesRequest apiKey (dictGet (pyDict qps) "slug") (dictGet (pyDict qps) "symbol")] ∧
    (("slug", s) ∈ (quotesRequest apiKey oslug osym).params ↔ oslug = some s ∧ s ≠ "") ∧
    (("symbol", s) ∈ (quotesRequest apiKey oslug osym).params ↔ osym = some s ∧ s ≠ "") := by
  refine ⟨?_, slug_mem_quotesParams oslug osym s, symbol_mem_quotesParams oslug osym s⟩
  unfold handle_read_resource
  dsimp only
  rw [if_neg (by decide : ¬¬("coinmarket" : String) = "coinmarket"),
      if_neg (by decide : ¬("/quotes" : String) = "/listings"), if_pos rfl]
  rcases h : get_quotes apiKey (dictGet (pyDict qps) "slug") (dictGet (pyDict qps) "symbol") u
    with ⟨r, log⟩
  have hl := get_quotes_log apiKey (dictGet (pyDict qps) "slug") (dictGet (pyDict qps) "symbol") u
  rw [h] at hl
  cases r <;> simpa using hl

/-! ## Round trip: `json.loads(json.dumps(j, indent=2)) = j`

The well-formedness below restricts payloads to ones whose strings are
escape-free printable ASCII and whose objects have distinct keys (a Python
`dict` can hold nothing else), which keeps the string case of the proof
about the identity escape; the serializer itself implements the full
escaping. -/

/-- The input does not start with a decimal digit (so a maximal digit run
ending right before it is really maximal). -/
def noDigitStart : List Char → Bool
  | [] => true
  | c :: _ => !c.isDigit

/-- Printable ASCII, not the quote, not the backslash: characters that
`json.dumps` emits unescaped. -/
def simpleChar (c : Char) : Bool :=
  decide (32 ≤ c.toNat) && decide (c.toNat ≤ 126) &&
  decide (c ≠ '"') && decide (c ≠ '\\')

/-- All characters of the string are simple. -/
def simpleStr (s : String) : Bool :=
  s.data.all simpleChar

/-- Key membership in a list of keys. -/
def keyMem (k : String) : List String → Bool
  | [] => false
  | k2 :: ks => k2 == k || keyMem k ks

/-- All keys distinct. -/
def keysDistinct : List String → Bool
  | [] => true
  | k :: ks => !keyMem k ks && keysDistinct ks

mutual

/-- Well-formed payload: simple strings throughout, distinct keys in every
object. -/
def wfVal : Json → Bool
  | .null => true
  | .bool _ => true
  | .num _ => true
  | .str s => simpleStr s
  | .arr l => wfElems l
  | .obj ms => keysDistinct (ms.map Prod.fst) && wfMembers ms
termination_by j => sizeOf j
decreasing_by all_goals (simp_wf; try omega)

def wfElems : List Json → Bool
  | [] => true
  | x :: xs => wfVal x && wfElems xs
termination_by l => sizeOf l
decreasing_by all_goals (simp_wf; try omega)

def wfMembers : List (String × Json) → Bool
  | [] => true
  | (k, v) :: ms => simpleStr k && wfVal v && wfMembers ms
termination_by l => sizeOf l
decreasing_by all_goals (simp_wf; try omega)

end

mutual

/-- Fuel needed by `parseVal` on the dump of `j`. -/
def weightVal : Json → Nat
  | .null => 1
  | .bool _ => 1
  | .num _ => 1
  | .str s => s.length + 2
  | .arr l => 1 + weightElems l
  | .obj ms => 1 + weightMembers ms
termination_by j => sizeOf j
decreasing_by all_goals (simp_wf; try omega)

def weightElems : List Json → Nat
  | [] => 0
  | x :: xs => 1 + weightVal x + weightElems xs
termination_by l => sizeOf l
decreasing_by all_goals (simp_wf; try omega)

def weightMembers : List (String × Json) → Nat
  | [] => 0
  | (k, v) :: ms => k.length + 2 + weightVal v + weightMembers ms
termination_by l => sizeOf l
decreasing_by all_goals (simp_wf; try omega)

end

/-- Every value needs at least one unit of fuel. -/
theorem weightVal_pos (j : Json) : 1 ≤ weightVal j := by
  cases j <;> simp [weightVal]

theorem skipWs_append (ws cs : List Char) (h : ws.all isWsChar = true) :
    skipWs (ws ++ cs) = skipWs cs := by
  induction ws with
  | nil => rfl
  | cons a t ih =>
      simp only [List.all_cons, Bool.and_eq_true] at h
      simpa [skipWs, h.1] using ih h.2

theorem skipWs_cons (c : Char) (cs : List Char) (h : isWsChar c = false) :
    skipWs (c :: cs) = c :: cs := by
  simp [skipWs, h]

theorem nlIndent_all_ws (lvl : Nat) : (nlIndent lvl).all isWsChar = true := by
  simp only [nlIndent, List.all_cons, Bool.and_eq_true]
  refine ⟨by decide, ?_⟩
  simp only [List.all_eq_true]
  intro c hc
  rw [List.eq_of_mem_replicate hc]
  decide

theorem expectChars_self (ps rest : List Char) :
    expectChars ps (ps ++ rest) = some rest := by
  induction ps with
  | nil => rfl
  | cons p t ih => simpa [expectChars] using ih

theorem string_mk_data (s : String) : String.mk s.data = s := rfl

theorem digitChar_facts (d : Nat) (h : d < 10) :
    (digitChar d).isDigit = true ∧ (digitChar d).toNat - 48 = d ∧
    isWsChar (digitChar d) = false ∧
    digitChar d ≠ 'n' ∧ digitChar d ≠ 't' ∧ digitChar d ≠ 'f' ∧
    digitChar d ≠ '"' ∧ digitChar d ≠ '[' ∧ digitChar d ≠ '{' ∧
    digitChar d ≠ '-' ∧ digitChar d ≠ ']' ∧ digitChar d ≠ '}' ∧
    digitChar d ≠ ',' := by
  interval_cases d <;> decide

theorem digitChar_ne_zero (d : Nat) (h0 : d ≠ 0) (h : d < 10) : digitChar d ≠ '0' := by
  interval_cases d
  · exact absurd rfl h0
  all_goals decide

/-- `readDigits` over a rendered digit run: it consumes exactly the digits
and computes the base-10 value. -/
theorem readDigits_go (ds : List Nat) (acc : Nat) (rest : List Char)
    (hds : ∀ d ∈ ds, d < 10) (hrest : noDigitStart rest = true) :
    readDigits acc (ds.map digitChar ++ rest) =
      (acc * 10 ^ ds.length + Nat.ofDigits 10 ds.reverse, rest) := by
  induction ds generalizing acc with
  | nil =>
      cases rest with
      | nil => simp [readDigits, Nat.ofDigits_nil]
      | cons c r =>
          simp only [noDigitStart, Bool.not_eq_true'] at hrest
          simp [readDigits, hrest, Nat.ofDigits_nil]
  | cons d t ih =>
      have hd : d < 10 := hds d (List.mem_cons_self _ _)
      have hf := digitChar_facts d hd
      simp only [List.map_cons, List.cons_append, readDigits, hf.1, if_true, hf.2.1,
                 List.append_eq]
      rw [ih _ (fun x hx => hds x (List.mem_cons_of_mem _ hx))]
      simp only [List.reverse_cons, Nat.ofDigits_append, Nat.ofDigits_singleton,
                 List.length_reverse, List.length_cons, Prod.mk.injEq, and_true]
      ring

theorem natChars_eq (m : Nat) (hm : m ≠ 0) :
    natChars m = (Nat.digits 10 m).reverse.map digitChar := by
  simp [natChars, hm]

/-- Reading back the decimal rendering of `m` yields `m`. -/
theorem readDigits_natChars (m : Nat) (rest : List Char)
    (hrest : noDigitStart rest = true) :
    readDigits 0 (natChars m ++ rest) = (m, rest) := by
  by_cases hm : m = 0
  · subst hm
    have := readDigits_go [0] 0 rest (by simp) hrest
    simpa [natChars, Nat.ofDigits_singleton] using this
  · rw [natChars_eq m hm]
    have := readDigits_go ((Nat.digits 10 m).reverse) 0 rest
      (fun d hd => Nat.digits_lt_base (by norm_num) (List.mem_reverse.mp hd)) hrest
    simpa [List.reverse_reverse, Nat.ofDigits_digits] using this

/-- The decimal rendering starts with a digit character, nonzero when `m`
is nonzero (no leading zeros). -/
theorem natChars_head (m : Nat) :
    ∃ d t, natChars m = digitChar d :: t ∧ d < 10 ∧ (m ≠ 0 → d ≠ 0) := by
  by_cases hm : m = 0
  · subst hm
    exact ⟨0, [], rfl, by norm_num, fun h => absurd rfl h⟩
  · rw [natChars_eq m hm]
    cases ht : (Nat.digits 10 m).reverse with
    | nil =>
        have : Nat.digits 10 m = [] := by simpa using congrArg List.reverse ht
        exact absurd this (Nat.digits_ne_nil_iff_ne_zero.mpr hm)
    | cons d t =>
        have hl : Nat.digits 10 m = t.reverse ++ [d] := by
          have := congrArg List.reverse ht
          simpa using this
        refine ⟨d, t.map digitChar, rfl, ?_, ?_⟩
        · exact Nat.digits_lt_base (by norm_num)
            (by rw [hl]; exact List.mem_append_right _ (List.mem_singleton_self _))
        · intro _
          have hne : Nat.digits 10 m ≠ [] := Nat.digits_ne_nil_iff_ne_zero.mpr hm
          have hgl := Nat.getLast_digit_ne_zero 10 hm
          have h1 : (Nat.digits 10 m).getLast? = some d := by
            rw [hl]
            exact List.getLast?_concat _
          rw [List.getLast?_eq_getLast _ hne] at h1
          have h2 : (Nat.digits 10 m).getLast hne = d := Option.some_injective _ h1
          intro hd0
          exact hgl (h2.trans hd0)

theorem escChar_simple (c : Char) (h : simpleChar c = true) : escChar c = [c] := by
  simp only [simpleChar, Bool.and_eq_true, decide_eq_true_eq] at h
  obtain ⟨⟨⟨h1, h2⟩, h3⟩, h4⟩ := h
  have hn : c ≠ '\n' := fun hc => absurd h1 (by subst hc; decide)
  have hr : c ≠ '\r' := fun hc => absurd h1 (by subst hc; decide)
  have ht : c ≠ '\t' := fun hc => absurd h1 (by subst hc; decide)
  unfold escChar
  rw [if_neg h3, if_neg h4, if_neg hn, if_neg hr, if_neg ht,
      if_neg (by omega), if_neg (by omega), if_neg (by omega), if_pos (by omega)]

theorem flatten_escChar (l : List Char) (h : l.all simpleChar = true) :
    (l.map escChar).flatten = l := by
  induction l with
  | nil => rfl
  | cons c t ih =>
      simp only [List.all_cons, Bool.and_eq_true] at h
      simp [escChar_simple c h.1, ih h.2]

theorem strChars_simple_append (s : String) (h : simpleStr s = true) (X : List Char) :
    strChars s ++ X = '"' :: (s.data ++ ('"' :: X)) := by
  simp [strChars, flatten_escChar s.data h, List.append_assoc]

/-- Reading back a simple string body consumes it up to the closing
quote. -/
theorem parseStrBody_simple (l : List Char) (fuel : Nat) (rest : List Char)
    (h : l.all simpleChar = true) (hf : l.length + 1 ≤ fuel) :
    parseStrBody fuel (l ++ '"' :: rest) = some (l, rest) := by
  induction l generalizing fuel with
  | nil =>
      obtain ⟨g, rfl⟩ : ∃ g, fuel = g + 1 := ⟨fuel - 1, by omega⟩
      simp [parseStrBody]
  | cons c t ih =>
      obtain ⟨g, rfl⟩ : ∃ g, fuel = g + 1 := ⟨fuel - 1, by omega⟩
      simp only [List.all_cons, Bool.and_eq_true] at h
      obtain ⟨hc, htl⟩ := h
      simp only [simpleChar, Bool.and_eq_true, decide_eq_true_eq] at hc
      obtain ⟨⟨⟨h1, h2⟩, h3⟩, h4⟩ := hc
      simp only [List.cons_append, parseStrBody]
      rw [if_neg h3, if_neg h4, if_neg (by omega)]
      rw [ih g htl (by simp at hf ⊢; omega)]

theorem keyMem_append (k : String) (xs ys : List String) :
    keyMem k (xs ++ ys) = (keyMem k xs || keyMem k ys) := by
  induction xs with
  | nil => simp [keyMem]
  | cons x t ih => simp [keyMem, ih, Bool.or_assoc]

theorem keysDistinct_head_not_mem (xs : List String) (k : String) (ys : List String)
    (h : keysDistinct (xs ++ k :: ys) = true) : keyMem k xs = false := by
  induction xs with
  | nil => rfl
  | cons x t ih =>
      simp only [List.cons_append, keysDistinct, Bool.and_eq_true,
                 Bool.not_eq_true', List.append_eq] at h
      obtain ⟨hx, hrest⟩ := h
      rw [keyMem_append] at hx
      simp only [Bool.or_eq_false_iff] at hx
      have hk : (k == x) = false := by
        have := hx.2
        simp only [keyMem, Bool.or_eq_false_iff] at this
        exact this.1
      have hx2 : (x == k) = false := by
        simp only [beq_eq_false_iff_ne] at hk ⊢
        exact fun he => hk he.symm
      simp [keyMem, hx2, ih hrest]

theorem dictInsert_append {α : Type} (d : List (String × α)) (k : String) (v : α)
    (h : keyMem k (d.map Prod.fst) = false) : dictInsert d k v = d ++ [(k, v)] := by
  induction d with
  | nil => rfl
  | cons p t ih =>
      obtain ⟨k2, v2⟩ := p
      simp only [List.map_cons, keyMem, Bool.or_eq_false_iff] at h
      have hne : k2 ≠ k := by simpa using h.1
      simp [dictInsert, hne, ih h.2]

theorem pyDict_go {α : Type} (ms : List (String × α)) : ∀ d : List (String × α),
    keysDistinct ((d ++ ms).map Prod.fst) = true →
    ms.foldl (fun d kv => dictInsert d kv.1 kv.2) d = d ++ ms := by
  induction ms with
  | nil => intro d _; simp
  | cons p t ih =>
      intro d h
      obtain ⟨k, v⟩ := p
      have hk : keyMem k (d.map Prod.fst) = false := by
        apply keysDistinct_head_not_mem (d.map Prod.fst) k (t.map Prod.fst)
        simpa [List.map_append] using h
      simp only [List.foldl_cons]
      rw [dictInsert_append d k v hk]
      rw [ih (d ++ [(k, v)]) (by simpa [List.map_append, List.append_assoc] using h)]
      simp

/-- On a member list with distinct keys (the only kind a Python `dict` can
produce), the decoder's dict collapse is the identity. -/
theorem pyDict_self {α : Type} (ms : List (String × α))
    (h : keysDistinct (ms.map Prod.fst) = true) : pyDict ms = ms := by
  have := pyDict_go ms [] (by simpa using h)
  simpa [pyDict] using this

theorem skipWs_exposed (ws t rest : List Char) (c : Char)
    (hws : ws.all isWsChar = true) (hc : isWsChar c = false) :
    skipWs (ws ++ (c :: t) ++ rest) = c :: (t ++ rest) := by
  rw [List.append_assoc, skipWs_append _ _ hws, List.cons_append, skipWs_cons _ _ hc]

theorem dumpVal_head (lvl : Nat) (j : Json) :
    ∃ c t, dumpVal lvl j = c :: t ∧ isWsChar c = false ∧ c ≠ ']' ∧ c ≠ '}' ∧ c ≠ ',' := by
  cases j with
  | null =>
      exact ⟨'n', ['u', 'l', 'l'], by simp [dumpVal], by decide, by decide, by decide,
        by decide⟩
  | bool b =>
      cases b with
      | false =>
          exact ⟨'f', ['a', 'l', 's', 'e'], by simp [dumpVal], by decide, by decide,
            by decide, by decide⟩
      | true =>
          exact ⟨'t', ['r', 'u', 'e'], by simp [dumpVal], by decide, by decide,
            by decide, by decide⟩
  | num n =>
      by_cases hn : n < 0
      · exact ⟨'-', natChars n.natAbs, by simp [dumpVal, intChars, hn], by decide,
          by decide, by decide, by decide⟩
      · obtain ⟨d, t, ht, hd, _⟩ := natChars_head n.toNat
        obtain ⟨_, _, hw, _, _, _, _, _, _, _, hrb, hcb, hcm⟩ := digitChar_facts d hd
        exact ⟨digitChar d, t, by simp [dumpVal, intChars, hn, ht], hw, hrb, hcb, hcm⟩
  | str s =>
      exact ⟨'"', (s.data.map escChar).flatten ++ ['"'], by simp [dumpVal, strChars],
        by decide, by decide, by decide, by decide⟩
  | arr l =>
      cases l with
      | nil =>
          exact ⟨'[', [']'], by simp [dumpVal], by decide, by decide, by decide, by decide⟩
      | cons x xs =>
          exact ⟨'[', dumpElems lvl x xs, by simp [dumpVal], by decide, by decide,
            by decide, by decide⟩
  | obj ms =>
      cases ms with
      | nil =>
          exact ⟨'{', ['}'], by simp [dumpVal], by decide, by decide, by decide, by decide⟩
      | cons m ms2 =>
          obtain ⟨k, v⟩ := m
          exact ⟨'{', dumpMembers lvl k v ms2, by simp [dumpVal], by decide, by decide,
            by decide, by decide⟩

theorem skipWs_dumpElems_head (lvl : Nat) (x : Json) (xs : List Json) (rest : List Char) :
    ∃ c2 t2, skipWs (dumpElems lvl x xs ++ rest) = c2 :: t2 ∧ c2 ≠ ']' := by
  obtain ⟨c0, t0, he, h1, h2, _, _⟩ := dumpVal_head (lvl + 1) x
  cases xs with
  | nil =>
      refine ⟨c0, t0 ++ (nlIndent lvl ++ ']' :: rest), ?_, h2⟩
      have hl : dumpElems lvl x [] ++ rest =
          nlIndent (lvl + 1) ++ ((c0 :: t0) ++ (nlIndent lvl ++ ']' :: rest)) := by
        simp [dumpElems, he, List.append_assoc]
      rw [hl, skipWs_append _ _ (nlIndent_all_ws _), List.cons_append,
          skipWs_cons _ _ h1]
  | cons y ys =>
      refine ⟨c0, t0 ++ (',' :: (dumpElems lvl y ys ++ rest)), ?_, h2⟩
      have hl : dumpElems lvl x (y :: ys) ++ rest =
          nlIndent (lvl + 1) ++ ((c0 :: t0) ++ (',' :: (dumpElems lvl y ys ++ rest))) := by
        simp [dumpElems, he, List.append_assoc]
      rw [hl, skipWs_append _ _ (nlIndent_all_ws _), List.cons_append,
          skipWs_cons _ _ h1]

theorem skipWs_dumpMembers_head (lvl : Nat) (k : String) (v : Json)
    (ms : List (String × Json)) (rest : List Char) :
    ∃ t2, skipWs (dumpMembers lvl k v ms ++ rest) = '"' :: t2 := by
  have hst : ∀ X : List Char,
      strChars k ++ X = '"' :: (((k.data.map escChar).flatten ++ ['"']) ++ X) := by
    intro X
    simp [strChars, List.append_assoc]
  cases ms with
  | nil =>
      have hl : dumpMembers lvl k v [] ++ rest =
          nlIndent (lvl + 1) ++ (strChars k ++
            (':' :: ' ' :: (dumpVal (lvl + 1) v ++ (nlIndent lvl ++ '}' :: rest)))) := by
        simp [dumpMembers, List.append_assoc]
      refine ⟨((k.data.map escChar).flatten ++ ['"']) ++
        (':' :: ' ' :: (dumpVal (lvl + 1) v ++ (nlIndent lvl ++ '}' :: rest))), ?_⟩
      rw [hl, skipWs_append _ _ (nlIndent_all_ws _), hst, skipWs_cons _ _ (by decide)]
  | cons m ms2 =>
      obtain ⟨k2, v2⟩ := m
      have hl : dumpMembers lvl k v ((k2, v2) :: ms2) ++ rest =
          nlIndent (lvl + 1) ++ (strChars k ++
            (':' :: ' ' :: (dumpVal (lvl + 1) v ++
              (',' :: (dumpMembers lvl k2 v2 ms2 ++ rest))))) := by
        simp [dumpMembers, List.append_assoc]
      refine ⟨((k.data.map escChar).flatten ++ ['"']) ++
        (':' :: ' ' :: (dumpVal (lvl + 1) v ++
          (',' :: (dumpMembers lvl k2 v2 ms2 ++ rest)))), ?_⟩
      rw [hl, skipWs_append _ _ (nlIndent_all_ws _), hst, skipWs_cons _ _ (by decide)]


set_option maxHeartbeats 1000000

theorem parse_dump_master : ∀ n : Nat,
    (∀ j, weightVal j ≤ n → wfVal j = true → ∀ lvl fuel ws rest,
       weightVal j ≤ fuel → ws.all isWsChar = true → noDigitStart rest = true →
       parseVal fuel (ws ++ dumpVal lvl j ++ rest) = some (j, rest)) ∧
    (∀ x xs, weightElems (x :: xs) ≤ n → wfElems (x :: xs) = true → ∀ lvl fuel rest,
       weightElems (x :: xs) ≤ fuel →
       parseElems fuel (dumpElems lvl x xs ++ rest) = some (x :: xs, rest)) ∧
    (∀ k v ms, weightMembers ((k, v) :: ms) ≤ n → wfMembers ((k, v) :: ms) = true →
       ∀ lvl fuel rest, weightMembers ((k, v) :: ms) ≤ fuel →
       parseMembers fuel (dumpMembers lvl k v ms ++ rest) = some ((k, v) :: ms, rest)) := by
  intro n
  induction n using Nat.strong_induction_on with
  | _ n IH =>
  refine ⟨?_, ?_, ?_⟩
  · intro j hn hwf lvl fuel ws rest hfuel hws hrest
    obtain ⟨f, rfl⟩ : ∃ f, fuel = f + 1 := ⟨fuel - 1, by have := weightVal_pos j; omega⟩
    cases j with
    | null =>
        have hd : dumpVal lvl Json.null = 'n' :: ['u', 'l', 'l'] := by simp [dumpVal]
        rw [hd]
        simp only [parseVal]
        rw [skipWs_exposed ws _ rest 'n' hws (by decide)]
        simp [expectChars]
    | bool b =>
        cases b with
        | true =>
            have hd : dumpVal lvl (Json.bool true) = 't' :: ['r', 'u', 'e'] := by
              simp [dumpVal]
            rw [hd]
            simp only [parseVal]
            rw [skipWs_exposed ws _ rest 't' hws (by decide)]
            simp [expectChars]
        | false =>
            have hd : dumpVal lvl (Json.bool false) = 'f' :: ['a', 'l', 's', 'e'] := by
              simp [dumpVal]
            rw [hd]
            simp only [parseVal]
            rw [skipWs_exposed ws _ rest 'f' hws (by decide)]
            simp [expectChars]
    | num k =>
        have hd : dumpVal lvl (Json.num k) = intChars k := by simp [dumpVal]
        by_cases hneg : k < 0
        · have hm : k.natAbs ≠ 0 := by omega
          obtain ⟨d, t, ht, hdlt, hd0⟩ := natChars_head k.natAbs
          have hdig := (digitChar_facts d hdlt).1
          have hic : intChars k = '-' :: natChars k.natAbs := by simp [intChars, hneg]
          have hsplit : natChars k.natAbs ++ rest = digitChar d :: (t ++ rest) := by
            rw [ht]; simp
          rw [hd, hic]
          simp only [parseVal]
          rw [skipWs_exposed ws _ rest '-' hws (by decide)]
          dsimp only
          rw [if_neg (by decide), if_neg (by decide), if_neg (by decide),
              if_neg (by decide), if_neg (by decide), if_neg (by decide), if_pos rfl]
          rw [hsplit]
          dsimp only
          rw [if_neg (digitChar_ne_zero d (hd0 hm) hdlt), if_pos hdig]
          rw [← hsplit, readDigits_natChars _ _ hrest]
          simp [abs_of_neg hneg]
        · have hz : (k.toNat : Int) = k := by omega
          by_cases hm : k.toNat = 0
          · have hic : intChars k = '0' :: [] := by simp [intChars, hneg, natChars, hm]
            rw [hd, hic]
            simp only [parseVal]
            rw [skipWs_exposed ws _ rest '0' hws (by decide)]
            dsimp only
            rw [if_neg (by decide), if_neg (by decide), if_neg (by decide),
                if_neg (by decide), if_neg (by decide), if_neg (by decide),
                if_neg (by decide), if_pos rfl]
            have : k = 0 := by omega
            simp [this]
          · obtain ⟨d, t, ht, hdlt, hd0⟩ := natChars_head k.toNat
            have hf := digitChar_facts d hdlt
            have hic : intChars k = digitChar d :: t := by
              rw [intChars, if_neg hneg, ht]
            have hsplit : natChars k.toNat ++ rest = digitChar d :: (t ++ rest) := by
              rw [ht]; simp
            rw [hd, hic]
            simp only [parseVal]
            rw [skipWs_exposed ws _ rest (digitChar d) hws hf.2.2.1]
            dsimp only
            rw [if_neg hf.2.2.2.1, if_neg hf.2.2.2.2.1, if_neg hf.2.2.2.2.2.1,
                if_neg hf.2.2.2.2.2.2.1, if_neg hf.2.2.2.2.2.2.2.1,
                if_neg hf.2.2.2.2.2.2.2.2.1, if_neg hf.2.2.2.2.2.2.2.2.2.1,
                if_neg (digitChar_ne_zero d (hd0 hm) hdlt), if_pos hf.1]
            rw [← hsplit, readDigits_natChars _ _ hrest]
            simp [hz]
    | str s =>
        have hsimple : simpleStr s = true := by simpa [wfVal] using hwf
        have hflen : s.data.length + 1 ≤ f := by
          have h1 : weightVal (Json.str s) = s.length + 2 := by simp [weightVal]
          have h2 : s.length = s.data.length := rfl
          omega
        have hd : dumpVal lvl (Json.str s) = '"' :: (s.data ++ ['"']) := by
          simp [dumpVal, strChars, flatten_escChar s.data hsimple]
        rw [hd]
        simp only [parseVal]
        rw [skipWs_exposed ws _ rest '"' hws (by decide)]
        dsimp only
        rw [if_neg (by decide), if_neg (by decide), if_neg (by decide), if_pos rfl]
        have hshape : (s.data ++ ['"']) ++ rest = s.data ++ '"' :: rest := by simp
        rw [hshape, parseStrBody_simple s.data f rest hsimple hflen]
    | arr l =>
        cases l with
        | nil =>
            have hd : dumpVal lvl (Json.arr []) = '[' :: [']'] := by simp [dumpVal]
            rw [hd]
            simp only [parseVal]
            rw [skipWs_exposed ws _ rest '[' hws (by decide)]
            dsimp only
            rw [if_neg (by decide), if_neg (by decide), if_neg (by decide),
                if_neg (by decide), if_pos rfl]
            rw [show ([']'] : List Char) ++ rest = ']' :: rest from rfl,
                skipWs_cons _ _ (by decide)]
            simp
        | cons x xs =>
            have hd : dumpVal lvl (Json.arr (x :: xs)) = '[' :: dumpElems lvl x xs := by
              simp [dumpVal]
            have hwE : wfElems (x :: xs) = true := by simpa [wfVal] using hwf
            have hwt : weightVal (Json.arr (x :: xs)) = 1 + weightElems (x :: xs) := by
              simp [weightVal]
            rw [hd]
            simp only [parseVal]
            rw [skipWs_exposed ws _ rest '[' hws (by decide)]
            dsimp only
            rw [if_neg (by decide), if_neg (by decide), if_neg (by decide),
                if_neg (by decide), if_pos rfl]
            obtain ⟨c2, t2, hsk, hc2⟩ := skipWs_dumpElems_head lvl x xs rest
            rw [hsk]
            dsimp only
            rw [if_neg hc2]
            have hQ := (IH (weightElems (x :: xs)) (by rw [hwt] at hn; omega)).2.1 x xs
              le_rfl hwE lvl f rest (by rw [hwt] at hfuel; omega)
            rw [hQ]
    | obj ms =>
        cases ms with
        | nil =>
            have hd : dumpVal lvl (Json.obj []) = '{' :: ['}'] := by simp [dumpVal]
            rw [hd]
            simp only [parseVal]
            rw [skipWs_exposed ws _ rest '{' hws (by decide)]
            dsimp only
            rw [if_neg (by decide), if_neg (by decide), if_neg (by decide),
                if_neg (by decide), if_neg (by decide), if_pos rfl]
            rw [show (['}'] : List Char) ++ rest = '}' :: rest from rfl,
                skipWs_cons _ _ (by decide)]
            simp
        | cons m ms2 =>
            obtain ⟨k, v⟩ := m
            have hkd : keysDistinct (((k, v) :: ms2).map Prod.fst) = true ∧
                wfMembers ((k, v) :: ms2) = true := by
              have := hwf
              simp only [wfVal, Bool.and_eq_true] at this
              exact this
            have hd : dumpVal lvl (Json.obj ((k, v) :: ms2)) =
                '{' :: dumpMembers lvl k v ms2 := by simp [dumpVal]
            have hwt : weightVal (Json.obj ((k, v) :: ms2)) =
                1 + weightMembers ((k, v) :: ms2) := by simp [weightVal]
            rw [hd]
            simp only [parseVal]
            rw [skipWs_exposed ws _ rest '{' hws (by decide)]
            dsimp only
            rw [if_neg (by decide), if_neg (by decide), if_neg (by decide),
                if_neg (by decide), if_neg (by decide), if_pos rfl]
            obtain ⟨t2, hsk⟩ := skipWs_dumpMembers_head lvl k v ms2 rest
            rw [hsk]
            dsimp only
            rw [if_neg (by decide)]
            have hS := (IH (weightMembers ((k, v) :: ms2)) (by rw [hwt] at hn; omega)).2.2
              k v ms2 le_rfl hkd.2 lvl f rest (by rw [hwt] at hfuel; omega)
            rw [hS]
            dsimp only
            rw [pyDict_self _ hkd.1]
  · intro x xs hn hwf lvl fuel rest hfuel
    simp only [wfElems, Bool.and_eq_true] at hwf
    obtain ⟨hwx, hwxs⟩ := hwf
    cases xs with
    | nil =>
        have hA : weightElems (x :: ([] : List Json)) = 1 + weightVal x + 0 := by
          simp [weightElems]
        obtain ⟨f, rfl⟩ : ∃ f, fuel = f + 1 := ⟨fuel - 1, by omega⟩
        simp only [parseElems]
        have hde : dumpElems lvl x [] ++ rest =
            nlIndent (lvl + 1) ++ dumpVal (lvl + 1) x ++ (nlIndent lvl ++ ']' :: rest) := by
          simp [dumpElems, List.append_assoc]
        have hP := (IH (weightVal x) (by omega)).1 x le_rfl hwx (lvl + 1) f
          (nlIndent (lvl + 1)) (nlIndent lvl ++ ']' :: rest) (by omega)
          (nlIndent_all_ws _) rfl
        rw [hde, hP]
        dsimp only
        rw [skipWs_append _ _ (nlIndent_all_ws lvl), skipWs_cons _ _ (by decide)]
        dsimp only
        rw [if_neg (by decide), if_pos rfl]
    | cons y ys =>
        have hA : weightElems (x :: y :: ys) = 1 + weightVal x + weightElems (y :: ys) := by
          simp [weightElems]
        have hB : 1 ≤ weightElems (y :: ys) := by
          have := weightVal_pos y
          simp [weightElems]
          omega
        obtain ⟨f, rfl⟩ : ∃ f, fuel = f + 1 := ⟨fuel - 1, by omega⟩
        simp only [parseElems]
        have hde : dumpElems lvl x (y :: ys) ++ rest =
            nlIndent (lvl + 1) ++ dumpVal (lvl + 1) x ++
              (',' :: (dumpElems lvl y ys ++ rest)) := by
          simp [dumpElems, List.append_assoc]
        have hP := (IH (weightVal x) (by omega)).1 x le_rfl hwx (lvl + 1) f
          (nlIndent (lvl + 1)) (',' :: (dumpElems lvl y ys ++ rest)) (by omega)
          (nlIndent_all_ws _) rfl
        rw [hde, hP]
        dsimp only
        rw [skipWs_cons _ _ (by decide)]
        dsimp only
        rw [if_pos rfl]
        have hQ := (IH (weightElems (y :: ys)) (by omega)).2.1 y ys le_rfl hwxs lvl f
          rest (by omega)
        rw [hQ]
  · intro k v ms hn hwf lvl fuel rest hfuel
    simp only [wfMembers, Bool.and_eq_true] at hwf
    obtain ⟨⟨hsk2, hwv⟩, hwms⟩ := hwf
    have hsk3 : k.data.all simpleChar = true := by simpa [simpleStr] using hsk2
    have hlen : k.length = k.data.length := rfl
    cases ms with
    | nil =>
        have hA : weightMembers ((k, v) :: ([] : List (String × Json))) =
            k.length + 2 + weightVal v + 0 := by simp [weightMembers]
        obtain ⟨f, rfl⟩ : ∃ f, fuel = f + 1 := ⟨fuel - 1, by omega⟩
        simp only [parseMembers]
        have hdm : dumpMembers lvl k v [] ++ rest =
            nlIndent (lvl + 1) ++ (strChars k ++
              (':' :: ' ' :: (dumpVal (lvl + 1) v ++ (nlIndent lvl ++ '}' :: rest)))) := by
          simp [dumpMembers, List.append_assoc]
        rw [hdm, skipWs_append _ _ (nlIndent_all_ws _),
            strChars_simple_append k hsk2, skipWs_cons _ _ (by decide)]
        dsimp only
        rw [if_pos rfl]
        rw [parseStrBody_simple k.data f _ hsk3 (by omega)]
        dsimp only
        rw [skipWs_cons _ _ (by decide)]
        dsimp only
        rw [if_pos rfl]
        have hsp : ' ' :: (dumpVal (lvl + 1) v ++ (nlIndent lvl ++ '}' :: rest)) =
            [' '] ++ dumpVal (lvl + 1) v ++ (nlIndent lvl ++ '}' :: rest) := by simp
        rw [hsp]
        have hP := (IH (weightVal v) (by omega)).1 v le_rfl hwv (lvl + 1) f [' ']
          (nlIndent lvl ++ '}' :: rest) (by omega) (by decide) rfl
        rw [hP]
        dsimp only
        rw [skipWs_append _ _ (nlIndent_all_ws lvl), skipWs_cons _ _ (by decide)]
        dsimp only
        rw [if_neg (by decide), if_pos rfl]
    | cons m2 ms2 =>
        obtain ⟨k2, v2⟩ := m2
        have hA : weightMembers ((k, v) :: (k2, v2) :: ms2) =
            k.length + 2 + weightVal v + weightMembers ((k2, v2) :: ms2) := by
          simp [weightMembers]
        have hB : 1 ≤ weightMembers ((k2, v2) :: ms2) := by
          simp [weightMembers]
          omega
        obtain ⟨f, rfl⟩ : ∃ f, fuel = f + 1 := ⟨fuel - 1, by omega⟩
        simp only [parseMembers]
        have hdm : dumpMembers lvl k v ((k2, v2) :: ms2) ++ rest =
            nlIndent (lvl + 1) ++ (strChars k ++
              (':' :: ' ' :: (dumpVal (lvl + 1) v ++
                (',' :: (dumpMembers lvl k2 v2 ms2 ++ rest))))) := by
          simp [dumpMembers, List.append_assoc]
        rw [hdm, skipWs_append _ _ (nlIndent_all_ws _),
            strChars_simple_append k hsk2, skipWs_cons _ _ (by decide)]
        dsimp only
        rw [if_pos rfl]
        rw [parseStrBody_simple k.data f _ hsk3 (by omega)]
        dsimp only
        rw [skipWs_cons _ _ (by decide)]
        dsimp only
        rw [if_pos rfl]
        have hsp : ' ' :: (dumpVal (lvl + 1) v ++
            (',' :: (dumpMembers lvl k2 v2 ms2 ++ rest))) =
            [' '] ++ dumpVal (lvl + 1) v ++
              (',' :: (dumpMembers lvl k2 v2 ms2 ++ rest)) := by simp
        rw [hsp]
        have hP := (IH (weightVal v) (by omega)).1 v le_rfl hwv (lvl + 1) f [' ']
          (',' :: (dumpMembers lvl k2 v2 ms2 ++ rest)) (by omega) (by decide) rfl
        rw [hP]
        dsimp only
        rw [skipWs_cons _ _ (by decide)]
        dsimp only
        rw [if_pos rfl]
        have hS := (IH (weightMembers ((k2, v2) :: ms2)) (by omega)).2.2 k2 v2 ms2
          le_rfl hwms lvl f rest (by omega)
        rw [hS]

theorem escChar_length_pos (c : Char) : 1 ≤ (escChar c).length := by
  unfold escChar
  split_ifs <;> simp [hex4]

theorem flatten_escChar_length (l : List Char) :
    l.length ≤ ((l.map escChar).flatten).length := by
  induction l with
  | nil => simp
  | cons c t ih =>
      have := escChar_length_pos c
      simp only [List.map_cons, List.flatten_cons, List.length_append, List.length_cons]
      omega

theorem weight_le_dump : ∀ n : Nat,
    (∀ j lvl, sizeOf j ≤ n → weightVal j ≤ (dumpVal lvl j).length) ∧
    (∀ x xs lvl, sizeOf x + sizeOf xs ≤ n →
      weightElems (x :: xs) ≤ (dumpElems lvl x xs).length) ∧
    (∀ k v ms lvl, sizeOf v + sizeOf ms ≤ n →
      weightMembers ((k, v) :: ms) ≤ (dumpMembers lvl k v ms).length) := by
  intro n
  induction n using Nat.strong_induction_on with
  | _ n IH =>
  refine ⟨?_, ?_, ?_⟩
  · intro j lvl hn
    cases j with
    | null => simp [weightVal, dumpVal]
    | bool b => cases b <;> simp [weightVal, dumpVal]
    | num m =>
        have hne : ∃ c t, intChars m = c :: t := by
          by_cases hm : m < 0
          · exact ⟨'-', natChars m.natAbs, by simp [intChars, hm]⟩
          · obtain ⟨d, t, ht, _, _⟩ := natChars_head m.toNat
            exact ⟨digitChar d, t, by simp [intChars, hm, ht]⟩
        obtain ⟨c, t, hct⟩ := hne
        simp [weightVal, dumpVal, hct]
    | str s =>
        have h1 := flatten_escChar_length s.data
        have h2 : s.length = s.data.length := rfl
        simp only [weightVal, dumpVal, strChars, List.length_append, List.length_cons,
                   List.length_singleton]
        omega
    | arr l =>
        cases l with
        | nil => simp [weightVal, weightElems, dumpVal]
        | cons x xs =>
            have hsz : sizeOf x + sizeOf xs < n := by
              simp at hn
              omega
            have h2 := (IH _ hsz).2.1 x xs lvl le_rfl
            simp [weightVal, dumpVal]
            omega
    | obj ms =>
        cases ms with
        | nil => simp [weightVal, weightMembers, dumpVal]
        | cons m ms2 =>
            obtain ⟨k, v⟩ := m
            have hsz : sizeOf v + sizeOf ms2 < n := by
              simp at hn
              omega
            have h2 := (IH _ hsz).2.2 k v ms2 lvl le_rfl
            simp [weightVal, dumpVal]
            omega
  · intro x xs lvl hn
    cases xs with
    | nil =>
        have hsx : sizeOf x < n := by
          simp at hn
          omega
        have h1 := (IH _ hsx).1 x (lvl + 1) le_rfl
        simp [weightElems, dumpElems, nlIndent]
        omega
    | cons y ys =>
        have hsx : sizeOf x < n ∧ sizeOf y + sizeOf ys < n := by
          simp at hn
          omega
        have h1 := (IH _ hsx.1).1 x (lvl + 1) le_rfl
        have h2 := (IH _ hsx.2).2.1 y ys lvl le_rfl
        simp [weightElems] at h2
        simp [weightElems, dumpElems, nlIndent]
        omega
  · intro k v ms lvl hn
    have hk1 := flatten_escChar_length k.data
    have hk2 : k.length = k.data.length := rfl
    cases ms with
    | nil =>
        have hsv : sizeOf v < n := by
          simp at hn
          omega
        have h1 := (IH _ hsv).1 v (lvl + 1) le_rfl
        simp only [weightMembers, dumpMembers, nlIndent, strChars, List.length_append,
                   List.length_cons, List.length_replicate, List.length_singleton]
        omega
    | cons m2 ms2 =>
        obtain ⟨k2, v2⟩ := m2
        have hsv : sizeOf v < n ∧ sizeOf v2 + sizeOf ms2 < n := by
          simp at hn
          omega
        have h1 := (IH _ hsv.1).1 v (lvl + 1) le_rfl
        have h2 := (IH _ hsv.2).2.2 k2 v2 ms2 lvl le_rfl
        simp [weightMembers] at h2
        simp only [weightMembers, dumpMembers, nlIndent, strChars, List.length_append,
                   List.length_cons, List.length_replicate, List.length_singleton]
        omega

/-- The round trip: parsing the pretty-printed dump of a well-formed
payload returns the payload. -/
theorem parseJson_jdumps (j : Json) (h : wfVal j = true) :
    parseJson (jdumps j) = some j := by
  have hwl := (weight_le_dump (sizeOf j)).1 j 0 le_rfl
  have hlen : (jdumps j).length = (dumpVal 0 j).length := rfl
  have hp := (parse_dump_master (weightVal j)).1 j le_rfl h 0
    (2 * (jdumps j).length + 1) [] [] (by omega) rfl rfl
  simp only [List.nil_append, List.append_nil] at hp
  unfold parseJson
  have hdata : (jdumps j).data = dumpVal 0 j := rfl
  rw [hdata, hp]
  simp [skipWs]

/-- C7: given an upstream listings response with a success status whose
parsed JSON is `{"data": [...]}` (well-formed: simple ASCII strings,
distinct object keys, integer numerals), `callTool("get_currency_listings",
None)` returns exactly one text content item whose body is the
pretty-printed payload, and parsing that body yields the payload back
(the serialize-then-parse round trip is the identity on the payload). -/
theorem C7_listings_roundtrip (apiKey : String) (u : Upstream) (xs : List Json)
    (hwf : wfVal (Json.obj [("data", Json.arr xs)]) = true)
    (h1 : 200 ≤ (u (listingsRequest apiKey)).status)
    (h2 : (u (listingsRequest apiKey)).status < 300)
    (h3 : parseJson (u (listingsRequest apiKey)).text =
      some (Json.obj [("data", Json.arr xs)])) :
    handle_call_tool apiKey u "get_currency_listings" none =
      (.ok [⟨"text", jdumps (Json.obj [("data", Json.arr xs)])⟩],
       [listingsRequest apiKey]) ∧
    parseJson (jdumps (Json.obj [("data", Json.arr xs)])) =
      some (Json.obj [("data", Json.arr xs)]) := by
  constructor
  · have hr : raise_for_status listingsUrl (u (listingsRequest apiKey)) = none := by
      unfold raise_for_status
      rw [if_neg (by omega)]
    have hok : get_currency_listings apiKey u =
        (.ok (Json.obj [("data", Json.arr xs)]), [listingsRequest apiKey]) := by
      simp only [get_currency_listings, hr, h3]
    unfold handle_call_tool
    rw [if_pos rfl, hok]
  · exact parseJson_jdumps _ hwf

theorem C7_witness :
    wfVal (Json.obj [("data", Json.arr [Json.num 1, Json.num 2])]) = true ∧
    200 ≤ (stubUpstream ⟨200, "OK", "\x7b\"data\": [1, 2]\x7d"⟩ (listingsRequest "k")).status ∧
    (stubUpstream ⟨200, "OK", "\x7b\"data\": [1, 2]\x7d"⟩ (listingsRequest "k")).status < 300 ∧
    parseJson (stubUpstream ⟨200, "OK", "\x7b\"data\": [1, 2]\x7d"⟩ (listingsRequest "k")).text =
      some (Json.obj [("data", Json.arr [Json.num 1, Json.num 2])]) ∧
    (handle_call_tool "k" (stubUpstream ⟨200, "OK", "\x7b\"data\": [1, 2]\x7d"⟩)
        "get_currency_listings" none =
      (.ok [⟨"text", jdumps (Json.obj [("data", Json.arr [Json.num 1, Json.num 2])])⟩],
       [listingsRequest "k"]) ∧
     parseJson (jdumps (Json.obj [("data", Json.arr [Json.num 1, Json.num 2])])) =
       some (Json.obj [("data", Json.arr [Json.num 1, Json.num 2])])) := by
  have hwf : wfVal (Json.obj [("data", Json.arr [Json.num 1, Json.num 2])]) = true := by
    simp [wfVal, wfElems, wfMembers, keysDistinct, keyMem]
    decide
  exact ⟨hwf, by decide, by decide, rfl,
    C7_listings_roundtrip "k" (stubUpstream ⟨200, "OK", "\x7b\"data\": [1, 2]\x7d"⟩)
      [Json.num 1, Json.num 2] hwf (by decide) (by decide) rfl⟩
